import Mathlib

/-!
Verification of the barangay / disaster resource-allocation system.

The development shallowly embeds the two allocation cores of the repository:

* `expertsystem.py` — the exact-strategy core (`ExpertSystem`): households with a
  known age list, priority scoring, a stable descending sort, and a greedy pass
  over the fixed four-resource catalogue (Food Pack, Hygiene Kit, Medical Kit,
  School Supplies) that mutates the shared budget and inventory.
* `simulation.py` — the stochastic-variant core (`DisasterAllocationGUI`):
  Bayesian size / vulnerability estimation over exact rationals, a CPython
  `heapq` priority queue (embedded operation by operation), and the allocation
  loop that stops when the shared budget reaches zero.

Python integers are modelled as `ℤ` (or `ℕ` where the source value is a length
or count), Python floats of the Bayesian estimators as `ℚ`, and Python dicts as
association lists or functions from a finite enumeration of the fixed keys.
-/

namespace Es

/-! ## Exact-strategy core (`expertsystem.py`) -/

/-- The four resource types of `ExpertSystem.resources`, in catalogue (dict
insertion) order: Food Pack, Hygiene Kit, Medical Kit, School Supplies. -/
inductive ERes : Type
  | food
  | hygiene
  | medical
  | school
deriving DecidableEq, Repr

/-- A household record of `ExpertSystem` (`add_household`): id, name, member
count, age list and the priority score computed at insertion. -/
structure EHousehold : Type where
  id : ℕ
  name : String
  members : ℕ
  ages : List ℤ
  priority_score : ℤ
deriving DecidableEq, Repr

/-- Per-age contribution of `ExpertSystem.calculate_priority`: +30 below 5,
+20 below 18, +25 above 60, else 0 (the branches are tested in that order). -/
def agePoints (age : ℤ) : ℤ :=
  if age < 5 then 30 else if age < 18 then 20 else if 60 < age then 25 else 0

/-- `ExpertSystem.calculate_priority`: `members * 10` plus the per-age
points. -/
def calculate_priority (members : ℕ) (ages : List ℤ) : ℤ :=
  (members : ℤ) * 10 + (ages.map agePoints).sum

/-- The mutable allocator state of one exact-strategy pass: the catalogue
availability (`self.resources[...]["available"]`), the local
`remaining_budget`, and the running grand total `self.total_cost`. -/
structure EState : Type where
  avail : ERes → ℤ
  budget : ℤ
  total_cost : ℤ

/-- `ExpertSystem.check_resource_availability`: `False` when the quantity is
not positive, else `quantity <= available and quantity * cost <= budget`. -/
def check_resource_availability (unitCost avail : ℤ) (q : ℤ) (budget : ℤ) : Bool :=
  if q ≤ 0 then false
  else decide (q ≤ avail ∧ q * unitCost ≤ budget)

/-- One guarded commit step of `ExpertSystem.allocate_resources` for one
resource type: when `check_resource_availability` passes, the quantity is
appended to the household's allocation dict, the availability drops by the
quantity, the remaining budget drops by the cost and the grand total grows by
the cost; otherwise nothing is recorded and the state is unchanged. -/
def tryAlloc (cost : ERes → ℤ) (rt : ERes) (q : ℤ)
    (al : List (ERes × ℤ)) (st : EState) : List (ERes × ℤ) × EState :=
  if check_resource_availability (cost rt) (st.avail rt) q st.budget then
    (al ++ [(rt, q)],
     { avail := Function.update st.avail rt (st.avail rt - q),
       budget := st.budget - q * cost rt,
       total_cost := st.total_cost + q * cost rt })
  else (al, st)

/-- The body of the `for household in sorted_households` loop of
`ExpertSystem.allocate_resources`: compute the age-band tallies and the four
needs, then scan the catalogue in its fixed order.  Food and hygiene are
guarded only by `check_resource_availability`; medical and school carry the
extra `> 0` guard of the source. -/
def allocHouseholdE (cost : ERes → ℤ) (h : EHousehold) (st : EState) :
    List (ERes × ℤ) × EState :=
  let children_under_5 : ℤ := ((h.ages.filter (fun a => decide (a < 5))).length : ℕ)
  let school_age : ℤ := ((h.ages.filter (fun a => decide (5 ≤ a ∧ a < 18))).length : ℕ)
  let elderly : ℤ := ((h.ages.filter (fun a => decide (60 < a))).length : ℕ)
  let food_packs : ℤ := ((h.members + 2) / 3 : ℕ)
  let hygiene_kits : ℤ := ((h.members + 3) / 4 : ℕ)
  let vulnerable_count : ℤ := children_under_5 + elderly
  let medical_kits : ℤ := if 3 ≤ vulnerable_count then 2 else min 1 vulnerable_count
  let s1 := tryAlloc cost .food food_packs [] st
  let s2 := tryAlloc cost .hygiene hygiene_kits s1.1 s1.2
  let s3 := if 0 < medical_kits then tryAlloc cost .medical medical_kits s2.1 s2.2 else s2
  let s4 := if 0 < school_age then tryAlloc cost .school school_age s3.1 s3.2 else s3
  s4

/-- Stable insertion of a household into a priority-descending list: the
household is placed before the first element whose score is not larger, so an
element already in the list keeps its place ahead of an equal-score
newcomer. -/
def insertByPriority (h : EHousehold) : List EHousehold → List EHousehold
  | [] => [h]
  | x :: xs =>
      if x.priority_score ≤ h.priority_score then h :: x :: xs
      else x :: insertByPriority h xs

/-- The processing order of `ExpertSystem.allocate_resources`:
`sorted(self.households, key=priority_score, reverse=True)`.  Python's sort is
stable, so the embedding uses a stable insertion sort, which produces the same
list: descending by score with ties kept in original order. -/
def sortByPriorityDesc : List EHousehold → List EHousehold
  | [] => []
  | x :: xs => insertByPriority x (sortByPriorityDesc xs)

/-- One iteration of the `for household in sorted_households` loop: process
the household against the shared state and append its `(id, allocation dict)`
pair to the ledger (the source stores it in `self.allocated_resources`,
keyed by household id). -/
def passStepE (cost : ERes → ℤ) (acc : List (ℕ × List (ERes × ℤ)) × EState)
    (h : EHousehold) : List (ℕ × List (ERes × ℤ)) × EState :=
  let r := allocHouseholdE cost h acc.2
  (acc.1 ++ [(h.id, r.1)], r.2)

/-- The whole exact-strategy pass over an already-supplied household list:
process the stably sorted households one by one, threading the shared state,
and emit the ledger in processing order. -/
def allocPassE (cost : ERes → ℤ) (hs : List EHousehold) (st : EState) :
    List (ℕ × List (ERes × ℤ)) × EState :=
  (sortByPriorityDesc hs).foldl (passStepE cost) ([], st)

/-- The persistent `ExpertSystem` state: the catalogue costs and availability
(`self.resources`), the household list, the stored budget, the allocation
ledger and the grand total. -/
structure ESystem : Type where
  cost : ERes → ℤ
  avail : ERes → ℤ
  households : List EHousehold
  budget : ℤ
  allocated : List (ℕ × List (ERes × ℤ))
  total_cost : ℤ

/-- `ExpertSystem.allocate_resources` as a state transformer: the pass starts
from the stored budget and the current (persistently mutated) availability,
rebuilds the ledger and the grand total from scratch, writes the final
availability back into `self.resources`, leaves `self.budget` untouched, and
returns the remaining budget. -/
def allocate_resources (s : ESystem) : ESystem × ℤ :=
  let r := allocPassE s.cost s.households ⟨s.avail, s.budget, 0⟩
  ({ s with avail := r.2.avail, allocated := r.1, total_cost := r.2.total_cost },
   r.2.budget)

/-- Set a key of a dict modelled as an association list: replace the value if
the key is present, else append the pair. -/
def dictSet (l : List (ℕ × List (ERes × ℤ))) (k : ℕ) (v : List (ERes × ℤ)) :
    List (ℕ × List (ERes × ℤ)) :=
  if l.any (fun p => decide (p.1 = k)) then
    l.map (fun p => if p.1 = k then (k, v) else p)
  else l ++ [(k, v)]

/-- `ExpertSystem.add_household`: the id is the current household count plus
one, the priority score is computed at insertion, the household is appended
and an empty allocation entry is created for its id. -/
def add_household (s : ESystem) (name : String) (members : ℕ) (ages : List ℤ) :
    ESystem :=
  let household_id := s.households.length + 1
  let h : EHousehold :=
    { id := household_id, name := name, members := members, ages := ages,
      priority_score := calculate_priority members ages }
  { s with households := s.households ++ [h],
           allocated := dictSet s.allocated household_id [] }

/-- `BarangayResourceApp.remove_household`: drop the household with the given
id from the list and delete its ledger entry. -/
def remove_household (s : ESystem) (h_id : ℕ) : ESystem :=
  { s with households := s.households.filter (fun h => decide (h.id ≠ h_id)),
           allocated := s.allocated.filter (fun p => decide (p.1 ≠ h_id)) }

/-- The freshly initialized `ExpertSystem` (no persisted files): default
catalogue, empty household list, budget 150000, empty ledger. -/
def initES : ESystem where
  cost := fun rt => match rt with
    | .food => 500 | .hygiene => 300 | .medical => 400 | .school => 250
  avail := fun rt => match rt with
    | .food => 100 | .hygiene => 80 | .medical => 50 | .school => 70
  households := []
  budget := 150000
  allocated := []
  total_cost := 0

/-- Dict-style lookup of the committed quantity of one resource type in a
household's allocation entry; an absent key reads as quantity 0 (the data
model of the spec treats absent and zero entries as equivalent). -/
def qtyIn (al : List (ERes × ℤ)) (rt : ERes) : ℤ :=
  ((al.find? (fun p => decide (p.1 = rt))).map Prod.snd).getD 0

/-- Total quantity recorded for one resource type in one allocation entry
(entries never repeat a key, so this agrees with `qtyIn` on reachable
ledgers, and it sums cleanly for the conservation laws). -/
def allQty (al : List (ERes × ℤ)) (rt : ERes) : ℤ :=
  ((al.filter (fun p => decide (p.1 = rt))).map Prod.snd).sum

/-- Total quantity of one resource type committed across a whole ledger. -/
def ledgerQty (led : List (ℕ × List (ERes × ℤ))) (rt : ERes) : ℤ :=
  (led.map (fun e => allQty e.2 rt)).sum

/-- Cost of one household's allocation entry under a cost table. -/
def entryCost (cost : ERes → ℤ) (al : List (ERes × ℤ)) : ℤ :=
  (al.map (fun p => p.2 * cost p.1)).sum

/-! ## Stochastic-variant core (`simulation.py`)

Floats of the source are modelled as exact rationals (`ℚ`). -/

/-- The three ordered vulnerability categories. -/
inductive Vuln : Type
  | low
  | medium
  | high
deriving DecidableEq, Repr

/-- Iteration order of the vulnerability dicts (`low`, `medium`, `high`). -/
def vulnList : List Vuln := [.low, .medium, .high]

/-- `self.vulnerability_priors = {"low": 0.3, "medium": 0.4, "high": 0.3}`. -/
def vulnerability_priors : Vuln → ℚ
  | .low => 3/10
  | .medium => 4/10
  | .high => 3/10

/-- `self.vulnerability_likelihoods[true_level][reported]`: the confusion
matrix, probability of the reported category given the true category. -/
def vulnerability_likelihoods : Vuln → Vuln → ℚ
  | .low, .low => 8/10
  | .low, .medium => 15/100
  | .low, .high => 5/100
  | .medium, .low => 1/10
  | .medium, .medium => 8/10
  | .medium, .high => 1/10
  | .high, .low => 5/100
  | .high, .medium => 15/100
  | .high, .high => 8/10

/-- `self.vulnerability_weights = {"low": 1, "medium": 2, "high": 3}`. -/
def vulnerability_weights : Vuln → ℚ
  | .low => 1
  | .medium => 2
  | .high => 3

/-- `self.size_priors = {2: 0.113, 3: 0.169, 4: 0.452, 5: 0.226, 6: 0.03,
7: 0.01}`, in dict insertion order. -/
def size_priors : List (ℤ × ℚ) :=
  [(2, 113/1000), (3, 169/1000), (4, 452/1000), (5, 226/1000),
   (6, 3/100), (7, 1/100)]

/-- `DisasterAllocationGUI.size_likelihood`: 0.7 at distance 0, 0.2 at
distance 1, 0.1 at distance 2, a 0.01 floor otherwise. -/
def size_likelihood (true_size reported_size : ℤ) : ℚ :=
  let d := |true_size - reported_size|
  if d = 0 then 7/10
  else if d = 1 then 2/10
  else if d = 2 then 1/10
  else 1/100

/-- The unnormalized posterior (`posterior[true_size] = likelihood * prior`)
of `bayesian_expected_members`. -/
def sizeJoint (reported : ℤ) : List (ℤ × ℚ) :=
  size_priors.map (fun p => (p.1, size_likelihood p.1 reported * p.2))

/-- The accumulated normalizer `total` of `bayesian_expected_members`. -/
def sizeTotal (reported : ℤ) : ℚ :=
  ((sizeJoint reported).map Prod.snd).sum

/-- `DisasterAllocationGUI.bayesian_expected_members`: normalize the
posterior by `total` and return the probability-weighted sum of the candidate
sizes. -/
def bayesian_expected_members (reported : ℤ) : ℚ :=
  ((sizeJoint reported).map (fun p => (p.1 : ℚ) * (p.2 / sizeTotal reported))).sum

/-- The unnormalized posterior of `bayesian_vulnerability_score`. -/
def vulnJoint (reported : Vuln) : List (Vuln × ℚ) :=
  vulnList.map (fun t => (t, vulnerability_likelihoods t reported * vulnerability_priors t))

/-- The accumulated normalizer `total` of `bayesian_vulnerability_score`. -/
def vulnTotal (reported : Vuln) : ℚ :=
  ((vulnJoint reported).map Prod.snd).sum

/-- `DisasterAllocationGUI.bayesian_vulnerability_score`: normalize the
posterior and return the weight-weighted sum over the three categories. -/
def bayesian_vulnerability_score (reported : Vuln) : ℚ :=
  ((vulnJoint reported).map
    (fun p => vulnerability_weights p.1 * (p.2 / vulnTotal reported))).sum

/-- Python's `round` on a float with no digits argument: nearest integer,
halves to the even neighbour. -/
def pyRound (q : ℚ) : ℤ :=
  let f := ⌊q⌋
  if q - f < 1/2 then f
  else if 1/2 < q - f then f + 1
  else if f % 2 = 0 then f else f + 1

/-- The `Household` objects of the simulation, with the derived Bayesian
fields computed by `Household.__init__`. -/
structure SHousehold : Type where
  id : ℕ
  ages : List ℤ
  reported_size : ℤ
  true_size : ℕ
  children : ℕ
  elderly : ℕ
  reported_vulnerability : Vuln
  expected_members : ℚ
  expected_vulnerability_score : ℚ
  priority : ℚ

/-- `Household.calculate_priority`: `expected_members * 5 + children * 10 +
elderly * 15 + expected_vulnerability_score * 25`. -/
def sim_calculate_priority (em : ℚ) (children elderly : ℕ) (evs : ℚ) : ℚ :=
  em * 5 + (children : ℚ) * 10 + (elderly : ℚ) * 15 + evs * 25

/-- `Household.__init__`: tallies over the true ages (`children` below 18,
`elderly` above 60), the two Bayesian estimates, and the priority score. -/
def mkSHousehold (id : ℕ) (true_ages : List ℤ) (reported_size : ℤ)
    (reported_vulnerability : Vuln) : SHousehold :=
  let em := bayesian_expected_members reported_size
  let evs := bayesian_vulnerability_score reported_vulnerability
  let children := (true_ages.filter (fun a => decide (a < 18))).length
  let elderly := (true_ages.filter (fun a => decide (60 < a))).length
  { id := id, ages := true_ages, reported_size := reported_size,
    true_size := true_ages.length, children := children, elderly := elderly,
    reported_vulnerability := reported_vulnerability,
    expected_members := em, expected_vulnerability_score := evs,
    priority := sim_calculate_priority em children elderly evs }

/-- `Household.__lt__`: `self.priority > other.priority` (max-heap through a
min-heap library). -/
def hLt (a b : SHousehold) : Bool := decide (b.priority < a.priority)

/-! ### CPython `heapq`, embedded operation by operation.

The two sift loops are written with an explicit iteration bound (`fuel`).
`_siftdown` moves `pos` strictly downwards each iteration, so `fuel = pos`
can never run out before the loop's own exit condition; `_siftup` moves `pos`
strictly upwards below `endpos`, so `fuel = heap length` can never run out
either.  The fuel-exhausted branch coincides with the loop-exit action. -/

/-- `heapq._siftdown(heap, startpos, pos)` with `newitem = heap[pos]` already
read: bubble `newitem` towards the root past larger-than-it parents. -/
def siftdownFuel {α : Type} (lt : α → α → Bool) (newitem : α) (startpos : ℕ) :
    ℕ → List α → ℕ → List α
  | 0, heap, pos => heap.set pos newitem
  | fuel + 1, heap, pos =>
    if startpos < pos then
      let parentpos := (pos - 1) / 2
      let parent := heap.getD parentpos newitem
      if lt newitem parent then
        siftdownFuel lt newitem startpos fuel (heap.set pos parent) parentpos
      else heap.set pos newitem
    else heap.set pos newitem

/-- `heapq._siftup(heap, pos)` with `newitem = heap[pos]` already read: walk
the smaller-child chain down to a leaf, then sift the item back down. -/
def siftupFuel {α : Type} (lt : α → α → Bool) (newitem : α) (startpos : ℕ) :
    ℕ → List α → ℕ → List α
  | 0, heap, pos => siftdownFuel lt newitem startpos pos (heap.set pos newitem) pos
  | fuel + 1, heap, pos =>
    let endpos := heap.length
    let childpos := 2 * pos + 1
    if childpos < endpos then
      let rightpos := childpos + 1
      let childpos :=
        if rightpos < endpos ∧ ¬ lt (heap.getD childpos newitem) (heap.getD rightpos newitem)
        then rightpos else childpos
      siftupFuel lt newitem startpos fuel
        (heap.set pos (heap.getD childpos newitem)) childpos
    else siftdownFuel lt newitem startpos pos (heap.set pos newitem) pos

/-- `heapq.heappush`: append, then sift the new item down from the last
position. -/
def heappush {α : Type} (lt : α → α → Bool) (heap : List α) (item : α) : List α :=
  let heap2 := heap ++ [item]
  siftdownFuel lt item 0 (heap2.length - 1) heap2 (heap2.length - 1)

/-- `heapq.heappop`: remove the last element; if the heap is still nonempty,
return the root, move the last element to the root and sift it up.  `none`
models the `IndexError` on an empty heap (never reached by the allocation
loop, whose guard tests emptiness first). -/
def heappop {α : Type} (lt : α → α → Bool) (heap : List α) : Option (α × List α) :=
  match heap.getLast? with
  | none => none
  | some lastelt =>
    let rest := heap.dropLast
    match rest with
    | [] => some (lastelt, [])
    | r0 :: _ =>
      some (r0, siftupFuel lt lastelt 0 rest.length (rest.set 0 lastelt) 0)

/-- The four resource types of the simulation catalogue, in dict insertion
order: Food Pack, Hygiene Kit, Medical Kit, Shelter Kit. -/
inductive SRes : Type
  | food
  | hygiene
  | medical
  | shelter
deriving DecidableEq, Repr

/-- The fixed scan order of the `needs` dict in `simulate_allocation`. -/
def sresOrder : List SRes := [.food, .hygiene, .medical, .shelter]

/-- Sum of a per-resource table over the simulation catalogue. -/
def sumS (f : SRes → ℤ) : ℤ := f .food + f .hygiene + f .medical + f .shelter

/-- The shared mutable state of `simulate_allocation`: the `resource_state`
copy of the availability and the `remaining_budget`. -/
structure SState : Type where
  avail : SRes → ℤ
  budget : ℤ

/-- The needs computed per household in `simulate_allocation`: food and
hygiene from the Bayesian expected size with Python rounding and a floor of
one, a 0/1 medical indicator from the true children/elderly tallies, a 0/1
shelter indicator from the vulnerability score crossing 2.5. -/
def needsOf (h : SHousehold) : SRes → ℤ
  | .food => max 1 (pyRound (h.expected_members / 3))
  | .hygiene => max 1 (pyRound (h.expected_members / 4))
  | .medical => if 0 < h.elderly ∨ 0 < h.children then 1 else 0
  | .shelter => if 5/2 ≤ h.expected_vulnerability_score then 1 else 0

/-- One iteration of the `for item, qty in needs.items()` loop: commit when
`qty <= resource_state[item] and remaining_budget >= cost`, recording the
quantity and updating availability, budget and the household total;
otherwise record quantity 0 (the source has no positivity guard here, but a
zero-quantity commit is observationally the same as a non-commit). -/
def allocItem (cost : SRes → ℤ) (q : ℤ) (item : SRes)
    (al : SRes → ℤ) (st : SState) (tc : ℤ) : (SRes → ℤ) × SState × ℤ :=
  let c := q * cost item
  if q ≤ st.avail item ∧ c ≤ st.budget then
    (Function.update al item q,
     ⟨Function.update st.avail item (st.avail item - q), st.budget - c⟩,
     tc + c)
  else (Function.update al item 0, st, tc)

/-- The per-household part of the `while` loop body: scan the four needs in
the fixed order, starting from an empty allocation dict (every key is
assigned during the scan) and a zero household total. -/
def allocHouseholdS (cost : SRes → ℤ) (h : SHousehold) (st : SState) :
    (SRes → ℤ) × SState × ℤ :=
  sresOrder.foldl
    (fun acc item => allocItem cost (needsOf h item) item acc.1 acc.2.1 acc.2.2)
    (fun _ => 0, st, 0)

/-- One allocation record appended per processed household (the fields of the
source's record dict needed by the claims: id, the committed quantities, the
household total, the synthetic processing index `waiting_time`, and the
priority). -/
structure SRecord : Type where
  householdId : ℕ
  alloc : SRes → ℤ
  totalCost : ℤ
  waitingTime : ℕ
  priority : ℚ

/-- The `while queue_heap and remaining_budget > 0` loop of
`simulate_allocation`.  The iteration bound equals the heap length (each
`heappop` removes exactly one element), so the loop exits through its own
guards. -/
def simLoopFuel (cost : SRes → ℤ) :
    ℕ → List SHousehold → SState → ℕ → List SRecord → List SRecord × SState
  | 0, _, st, _, acc => (acc, st)
  | fuel + 1, heap, st, t, acc =>
    if heap.isEmpty then (acc, st)
    else if st.budget ≤ 0 then (acc, st)
    else
      match heappop hLt heap with
      | none => (acc, st)
      | some (h, heap2) =>
        let r := allocHouseholdS cost h st
        simLoopFuel cost fuel heap2 r.2.1 (t + 1)
          (acc ++ [⟨h.id, r.1, r.2.2, t, h.priority⟩])

/-- `DisasterAllocationGUI.simulate_allocation`: push every household on the
heap, run the loop from a fresh copy of the availability and the configured
budget, and return the records with the remaining budget.  The catalogue in
`self.resources` is only read (the loop mutates its local `resource_state`
copy), so the pass returns no updated availability. -/
def simulate_allocation (cost avail : SRes → ℤ) (budget : ℤ)
    (households : List SHousehold) : List SRecord × ℤ :=
  let heap := households.foldl (heappush hLt) []
  let r := simLoopFuel cost heap.length heap ⟨avail, budget⟩ 0 []
  (r.1, r.2.budget)

/-- The default simulation catalogue costs. -/
def simCost : SRes → ℤ
  | .food => 500 | .hygiene => 300 | .medical => 400 | .shelter => 600

/-- The default simulation catalogue availability. -/
def simAvail : SRes → ℤ
  | .food => 100 | .hygiene => 80 | .medical => 50 | .shelter => 40

/-! ## Helper lemmas -/

/-- The guard of the exact-strategy commit, in the spec's form. -/
theorem check_iff (unitCost avail q budget : ℤ) :
    check_resource_availability unitCost avail q budget = true
      ↔ (0 < q ∧ q ≤ avail ∧ q * unitCost ≤ budget) := by
  unfold check_resource_availability
  by_cases hq : q ≤ 0
  · simp only [if_pos hq, Bool.false_eq_true, false_iff]
    rintro ⟨h, -⟩
    omega
  · simp only [if_neg hq, decide_eq_true_eq]
    exact ⟨fun h => ⟨by omega, h⟩, fun h => h.2⟩

/-! ## Claim theorems -/

/-- C1: in one allocation pass, for every household and every scanned resource
type, the computed quantity is committed iff it is positive, fits in the
remaining inventory of the type, and its cost fits in the remaining budget;
on commit the inventory drops by the quantity, the budget drops by the cost,
and the cost is added to the accumulated total (the grand total
`self.total_cost` in the exact-strategy core, the household total in the
stochastic core); otherwise the state is unchanged and 0 is recorded.  The
stochastic core's guard omits the positivity test, but a zero-quantity
"commit" there records 0 and changes nothing, matching the non-commit
branch. -/
theorem commit_characterization :
    (∀ (cost : ERes → ℤ) (rt : ERes) (q : ℤ) (al : List (ERes × ℤ)) (st : EState),
      tryAlloc cost rt q al st =
        if 0 < q ∧ q ≤ st.avail rt ∧ q * cost rt ≤ st.budget then
          (al ++ [(rt, q)],
           { avail := Function.update st.avail rt (st.avail rt - q),
             budget := st.budget - q * cost rt,
             total_cost := st.total_cost + q * cost rt })
        else (al, st))
    ∧
    (∀ (cost : SRes → ℤ) (item : SRes) (q : ℤ) (al : SRes → ℤ) (st : SState) (tc : ℤ),
      0 ≤ q →
      allocItem cost q item al st tc =
        if 0 < q ∧ q ≤ st.avail item ∧ q * cost item ≤ st.budget then
          (Function.update al item q,
           ⟨Function.update st.avail item (st.avail item - q), st.budget - q * cost item⟩,
           tc + q * cost item)
        else (Function.update al item 0, st, tc)) := by
  constructor
  · intro cost rt q al st
    rw [tryAlloc]
    by_cases h : 0 < q ∧ q ≤ st.avail rt ∧ q * cost rt ≤ st.budget
    · rw [if_pos ((check_iff _ _ _ _).mpr h), if_pos h]
    · rw [if_neg (fun hc => h ((check_iff _ _ _ _).mp hc)), if_neg h]
  · intro cost item q al st tc hq
    simp only [allocItem]
    by_cases h : 0 < q ∧ q ≤ st.avail item ∧ q * cost item ≤ st.budget
    · rw [if_pos ⟨h.2.1, h.2.2⟩, if_pos h]
    · rw [if_neg h]
      by_cases hc : q ≤ st.avail item ∧ q * cost item ≤ st.budget
      · have hq0 : q = 0 := by
          have : ¬ 0 < q := fun hpos => h ⟨hpos, hc.1, hc.2⟩
          omega
        subst hq0
        rw [if_pos hc]
        simp [Function.update_eq_self]
      · rw [if_neg hc]

/-- Witness for C1: the stochastic commit step at a concrete input. -/
theorem commit_characterization_witness :
    allocItem simCost 1 .food (fun _ => 0) ⟨simAvail, 800⟩ 0 =
      if 0 < (1:ℤ) ∧ (1:ℤ) ≤ simAvail .food ∧ 1 * simCost .food ≤ 800 then
        (Function.update (fun _ => (0:ℤ)) .food 1,
         ⟨Function.update simAvail .food (simAvail .food - 1), 800 - 1 * simCost .food⟩,
         0 + 1 * simCost .food)
      else (Function.update (fun _ => (0:ℤ)) .food 0, ⟨simAvail, 800⟩, 0) :=
  commit_characterization.2 simCost .food 1 (fun _ => 0) ⟨simAvail, 800⟩ 0 (by norm_num)

/-- Every size likelihood is at least the 0.01 floor, hence positive. -/
theorem size_likelihood_pos (t r : ℤ) : (0:ℚ) < size_likelihood t r := by
  unfold size_likelihood
  dsimp only
  split_ifs <;> norm_num

/-- The normalizer of the size posterior is strictly positive for every
integer reported size. -/
theorem sizeTotal_pos (r : ℤ) : 0 < sizeTotal r := by
  have h2 := mul_pos (size_likelihood_pos 2 r) (show (0:ℚ) < 113/1000 by norm_num)
  have h3 := mul_pos (size_likelihood_pos 3 r) (show (0:ℚ) < 169/1000 by norm_num)
  have h4 := mul_pos (size_likelihood_pos 4 r) (show (0:ℚ) < 452/1000 by norm_num)
  have h5 := mul_pos (size_likelihood_pos 5 r) (show (0:ℚ) < 226/1000 by norm_num)
  have h6 := mul_pos (size_likelihood_pos 6 r) (show (0:ℚ) < 3/100 by norm_num)
  have h7 := mul_pos (size_likelihood_pos 7 r) (show (0:ℚ) < 1/100 by norm_num)
  unfold sizeTotal sizeJoint size_priors
  simp only [List.map_cons, List.map_nil, List.sum_cons, List.sum_nil, add_zero]
  linarith

/-- The normalizer of the vulnerability posterior is strictly positive for
each of the three reported categories. -/
theorem vulnTotal_pos (v : Vuln) : 0 < vulnTotal v := by
  cases v <;>
    norm_num [vulnTotal, vulnJoint, vulnList, vulnerability_likelihoods,
      vulnerability_priors]

/-- Summing a list of values all divided by the same denominator. -/
theorem sum_map_div {α : Type} (l : List α) (f : α → ℚ) (T : ℚ) :
    (l.map (fun a => f a / T)).sum = (l.map f).sum / T := by
  induction l with
  | nil => simp
  | cons a l ih => simp [ih, add_div]

/-- C10: the Bayesian normalizers never vanish — every likelihood sits on the
0.01 floor or above and every prior is positive — so the posterior
normalization of `bayesian_expected_members` divides by a strictly positive
total for every integer reported size, and likewise
`bayesian_vulnerability_score` for each of the three reported categories
(both estimators are total Lean functions of their reported input by
construction). -/
theorem bayesian_normalizer_positive :
    (∀ reported : ℤ, 0 < sizeTotal reported ∧ sizeTotal reported ≠ 0
      ∧ ∀ t : ℤ, 1/100 ≤ size_likelihood t reported)
    ∧ (∀ reported : Vuln, 0 < vulnTotal reported ∧ vulnTotal reported ≠ 0) := by
  constructor
  · intro r
    refine ⟨sizeTotal_pos r, ne_of_gt (sizeTotal_pos r), fun t => ?_⟩
    unfold size_likelihood
    dsimp only
    split_ifs <;> norm_num
  · intro v
    exact ⟨vulnTotal_pos v, ne_of_gt (vulnTotal_pos v)⟩

/-- C6: both Bayesian estimators return the expectation of the exact discrete
posterior: the normalized posterior weights sum to 1, the expected size is
the probability-weighted sum of the candidate sizes over the prior support,
and the expected vulnerability is the probability-weighted sum of the
ordinal weights 1/2/3 over the three categories (the likelihood tables
themselves are the `size_likelihood` 0.7/0.2/0.1/0.01 model and the
`vulnerability_likelihoods` confusion matrix of the embedding). -/
theorem bayesian_posterior_expectation :
    (∀ r : ℤ,
      ((sizeJoint r).map (fun p => p.2 / sizeTotal r)).sum = 1
      ∧ bayesian_expected_members r
          = ((sizeJoint r).map (fun p => (p.1 : ℚ) * p.2)).sum / sizeTotal r)
    ∧ (∀ v : Vuln,
      ((vulnJoint v).map (fun p => p.2 / vulnTotal v)).sum = 1
      ∧ bayesian_vulnerability_score v
          = ((vulnJoint v).map (fun p => vulnerability_weights p.1 * p.2)).sum
              / vulnTotal v)
    ∧ vulnerability_weights .low = 1 ∧ vulnerability_weights .medium = 2
    ∧ vulnerability_weights .high = 3 := by
  refine ⟨fun r => ⟨?_, ?_⟩, fun v => ⟨?_, ?_⟩, rfl, rfl, rfl⟩
  · rw [sum_map_div (sizeJoint r) (fun p => p.2) (sizeTotal r)]
    exact div_self (ne_of_gt (sizeTotal_pos r))
  · rw [bayesian_expected_members]
    rw [show (fun p : ℤ × ℚ => (p.1 : ℚ) * (p.2 / sizeTotal r))
          = fun p : ℤ × ℚ => ((p.1 : ℚ) * p.2) / sizeTotal r from
        funext fun p => (mul_div_assoc _ _ _).symm]
    exact sum_map_div (sizeJoint r) (fun p => (p.1 : ℚ) * p.2) (sizeTotal r)
  · rw [sum_map_div (vulnJoint v) (fun p => p.2) (vulnTotal v)]
    exact div_self (ne_of_gt (vulnTotal_pos v))
  · rw [bayesian_vulnerability_score]
    rw [show (fun p : Vuln × ℚ => vulnerability_weights p.1 * (p.2 / vulnTotal v))
          = fun p : Vuln × ℚ => (vulnerability_weights p.1 * p.2) / vulnTotal v from
        funext fun p => (mul_div_assoc _ _ _).symm]
    exact sum_map_div (vulnJoint v) (fun p => vulnerability_weights p.1 * p.2) (vulnTotal v)

/-- C7: Scenario B of the spec, in the exact-strategy core.  With the default
catalogue (Food 500/100, Hygiene 300/80), budget 900 and one 6-member
household of adults, the Food need of 2 (cost 1000) exceeds the budget and is
skipped, while the Hygiene need of 2 (cost 600) commits, leaving 300; the
household's ledger entry carries no Food key, which the data model reads as
quantity 0 (`qtyIn`), and the Food shortfall did not block the Hygiene
commit. -/
theorem scenario_b_partial_allocation :
    (let r := allocPassE initES.cost
        [⟨1, "A", 6, [30, 30, 30, 30, 30, 30],
           calculate_priority 6 [30, 30, 30, 30, 30, 30]⟩]
        ⟨initES.avail, 900, 0⟩
     r.1 = [(1, [(ERes.hygiene, 2)])]
     ∧ r.2.budget = 300
     ∧ r.2.avail .food = 100
     ∧ r.2.avail .hygiene = 78
     ∧ qtyIn [(ERes.hygiene, 2)] .food = 0
     ∧ qtyIn [(ERes.hygiene, 2)] .hygiene = 2) := by
  decide

/-- Counterexample to C9: after add "A", add "B", remove id 1, add "C", the
id computed as `len(households) + 1` collides with household "B": the
household list carries the duplicate ids `[2, 2]`. -/
theorem id_reuse_counterexample :
    (let s := add_household
        (remove_household (add_household (add_household initES "A" 1 [30]) "B" 1 [30]) 1)
        "C" 1 [30]
     s.households.map EHousehold.id = [2, 2]
     ∧ ¬ (s.households.map EHousehold.id).Nodup) := by
  decide

/-- Ids after a pure sequence of additions are `1 .. n` in insertion order. -/
theorem add_fold_ids :
    ∀ (entries : List (String × ℕ × List ℤ)) (s : ESystem),
      s.households.map EHousehold.id = List.range' 1 s.households.length →
      ((entries.foldl (fun s e => add_household s e.1 e.2.1 e.2.2) s).households.map
        EHousehold.id) = List.range' 1 (s.households.length + entries.length) := by
  intro entries
  induction entries with
  | nil => intro s hs; simpa using hs
  | cons e rest ih =>
    intro s hs
    have hlen : (add_household s e.1 e.2.1 e.2.2).households.length
        = s.households.length + 1 := by
      simp [add_household]
    have hadd : (add_household s e.1 e.2.1 e.2.2).households.map EHousehold.id
        = List.range' 1 ((add_household s e.1 e.2.1 e.2.2).households.length) := by
      rw [hlen]
      have hc : List.range' 1 (s.households.length + 1)
          = List.range' 1 s.households.length ++ [1 + 1 * s.households.length] :=
        List.range'_concat 1 s.households.length
      simp only [List.map_append, add_household, List.map_cons, List.map_nil] at *
      simp [hs, hc, Nat.add_comm]
    have := ih (add_household s e.1 e.2.1 e.2.2) hadd
    rw [List.foldl_cons, this, hlen]
    congr 1
    simp only [List.length_cons]
    omega

/-- C9 (amended): ids are assigned as current-count-plus-one at insertion, so
any session consisting only of additions yields ids `1 .. n`, unique and in
insertion order; after a removal, however, the same formula re-assigns an
existing id (see the counterexample). -/
theorem ids_insertion_order :
    ∀ entries : List (String × ℕ × List ℤ),
      ((entries.foldl (fun s e => add_household s e.1 e.2.1 e.2.2) initES).households.map
        EHousehold.id) = List.range' 1 entries.length
      ∧ ((entries.foldl (fun s e => add_household s e.1 e.2.1 e.2.2) initES).households.map
        EHousehold.id).Nodup := by
  intro entries
  have h := add_fold_ids entries initES (by simp [initES])
  simp only [initES, List.length_nil, Nat.zero_add] at h
  exact ⟨h, h ▸ List.nodup_range' _ _⟩

/-- Quantity bookkeeping of one appended allocation pair. -/
theorem allQty_append (al : List (ERes × ℤ)) (rt' : ERes) (q : ℤ) (rt : ERes) :
    allQty (al ++ [(rt', q)]) rt = allQty al rt + if rt' = rt then q else 0 := by
  rcases eq_or_ne rt' rt with rfl | hne
  · simp [allQty, List.filter_append]
  · simp [allQty, List.filter_append, hne]

/-- Cost bookkeeping of one appended allocation pair. -/
theorem entryCost_append (cost : ERes → ℤ) (al : List (ERes × ℤ)) (rt' : ERes) (q : ℤ) :
    entryCost cost (al ++ [(rt', q)]) = entryCost cost al + q * cost rt' := by
  simp [entryCost]

/-- Exact conservation relation between two allocator configurations: the
availability drop equals the committed quantity delta, the budget drop equals
the grand-total growth, and the grand-total growth equals the ledger-cost
delta. -/
def EDelta (cost : ERes → ℤ) (p q : List (ERes × ℤ) × EState) : Prop :=
  (∀ rt, q.2.avail rt = p.2.avail rt - (allQty q.1 rt - allQty p.1 rt))
  ∧ q.2.budget = p.2.budget - (q.2.total_cost - p.2.total_cost)
  ∧ q.2.total_cost = p.2.total_cost + (entryCost cost q.1 - entryCost cost p.1)

theorem EDelta_refl (cost : ERes → ℤ) (p : List (ERes × ℤ) × EState) :
    EDelta cost p p := by
  refine ⟨fun rt => by ring, by ring, by ring⟩

theorem EDelta_trans {cost : ERes → ℤ} {p q r : List (ERes × ℤ) × EState}
    (h1 : EDelta cost p q) (h2 : EDelta cost q r) : EDelta cost p r := by
  obtain ⟨a1, b1, c1⟩ := h1
  obtain ⟨a2, b2, c2⟩ := h2
  refine ⟨fun rt => ?_, by linarith, by linarith⟩
  have := a1 rt
  have := a2 rt
  linarith

/-- One commit step satisfies the conservation relation. -/
theorem tryAlloc_EDelta (cost : ERes → ℤ) (rt' : ERes) (q : ℤ)
    (al : List (ERes × ℤ)) (st : EState) :
    EDelta cost (al, st) (tryAlloc cost rt' q al st) := by
  unfold tryAlloc
  split_ifs with hc
  · refine ⟨fun rt => ?_, by dsimp; ring, ?_⟩
    · dsimp only
      rw [allQty_append]
      rcases eq_or_ne rt' rt with rfl | hne
      · simp [Function.update_same]
      · simp [Function.update_noteq (Ne.symm hne), hne]
    · dsimp only
      rw [entryCost_append]
      ring
  · exact EDelta_refl cost (al, st)

/-- A conditionally executed commit step satisfies the conservation
relation (the medical and school steps carry an extra positivity guard). -/
theorem tryAllocIf_EDelta (cost : ERes → ℤ) (rt' : ERes) (q : ℤ) (c : Prop)
    [Decidable c] (p : List (ERes × ℤ) × EState) :
    EDelta cost p (if c then tryAlloc cost rt' q p.1 p.2 else p) := by
  split_ifs with hc
  · exact tryAlloc_EDelta cost rt' q p.1 p.2
  · exact EDelta_refl cost p

/-- One household's scan satisfies the conservation relation, starting from
the empty allocation dict. -/
theorem allocHouseholdE_EDelta (cost : ERes → ℤ) (h : EHousehold) (st : EState) :
    EDelta cost ([], st) (allocHouseholdE cost h st) := by
  unfold allocHouseholdE
  dsimp only
  exact EDelta_trans (EDelta_trans (EDelta_trans
    (tryAlloc_EDelta _ _ _ _ _) (tryAlloc_EDelta _ _ _ _ _))
    (tryAllocIf_EDelta _ _ _ _ _)) (tryAllocIf_EDelta _ _ _ _ _)

/-- Folding the pass step from a nonempty ledger accumulator only prepends
the accumulator. -/
theorem foldE_shift (cost : ERes → ℤ) :
    ∀ (l : List EHousehold) (acc : List (ℕ × List (ERes × ℤ))) (st : EState),
      l.foldl (passStepE cost) (acc, st)
        = (acc ++ (l.foldl (passStepE cost) ([], st)).1,
           (l.foldl (passStepE cost) ([], st)).2) := by
  intro l
  induction l with
  | nil => intro acc st; simp
  | cons h l ih =>
    intro acc st
    rw [List.foldl_cons, List.foldl_cons]
    rw [show passStepE cost (acc, st) h
        = (acc ++ [(h.id, (allocHouseholdE cost h st).1)], (allocHouseholdE cost h st).2)
      from rfl]
    rw [show passStepE cost ([], st) h
        = ([(h.id, (allocHouseholdE cost h st).1)], (allocHouseholdE cost h st).2) from rfl]
    rw [ih (acc ++ [(h.id, (allocHouseholdE cost h st).1)]) ((allocHouseholdE cost h st).2)]
    rw [ih [(h.id, (allocHouseholdE cost h st).1)] ((allocHouseholdE cost h st).2)]
    simp

/-- The empty allocation entry commits nothing. -/
theorem allQty_nil (rt : ERes) : allQty [] rt = 0 := rfl

/-- The empty allocation entry costs nothing. -/
theorem entryCost_nil (cost : ERes → ℤ) : entryCost cost [] = 0 := rfl

/-- Ledger quantities decompose over the first entry. -/
theorem ledgerQty_cons (i : ℕ) (a : List (ERes × ℤ))
    (L : List (ℕ × List (ERes × ℤ))) (rt : ERes) :
    ledgerQty ((i, a) :: L) rt = allQty a rt + ledgerQty L rt := by
  simp [ledgerQty]

/-- Conservation and processing order of the folded pass: the final
availability is the initial one minus the committed ledger quantities, the
budget drop equals the grand-total growth, the grand total grows by the
ledger cost, and the ledger ids are the processed households' ids in
order. -/
theorem foldE_delta (cost : ERes → ℤ) :
    ∀ (l : List EHousehold) (st : EState),
      (∀ rt, (l.foldl (passStepE cost) ([], st)).2.avail rt
          = st.avail rt - ledgerQty (l.foldl (passStepE cost) ([], st)).1 rt)
      ∧ (l.foldl (passStepE cost) ([], st)).2.budget
          = st.budget - ((l.foldl (passStepE cost) ([], st)).2.total_cost - st.total_cost)
      ∧ (l.foldl (passStepE cost) ([], st)).2.total_cost
          = st.total_cost
            + ((l.foldl (passStepE cost) ([], st)).1.map (fun e => entryCost cost e.2)).sum
      ∧ (l.foldl (passStepE cost) ([], st)).1.map Prod.fst = l.map EHousehold.id := by
  intro l
  induction l with
  | nil => intro st; refine ⟨fun rt => by simp [ledgerQty], by simp, by simp, by simp⟩
  | cons h l ih =>
    intro st
    rw [List.foldl_cons]
    rw [show passStepE cost ([], st) h
        = ([(h.id, (allocHouseholdE cost h st).1)], (allocHouseholdE cost h st).2) from rfl]
    rw [foldE_shift]
    obtain ⟨ha, hb, hc, hd⟩ := ih ((allocHouseholdE cost h st).2)
    obtain ⟨ea, eb, ec⟩ := allocHouseholdE_EDelta cost h st
    refine ⟨fun rt => ?_, ?_, ?_, ?_⟩
    · have h1 := ha rt
      have h2 := ea rt
      rw [allQty_nil] at h2
      simp only [List.cons_append, List.nil_append, ledgerQty_cons]
      linarith
    · simp only [List.cons_append, List.nil_append]
      linarith [hb, eb]
    · have := ec
      rw [entryCost_nil cost] at this
      simp only [List.cons_append, List.nil_append, List.map_cons, List.sum_cons]
      linarith [hc, this]
    · simp only [List.cons_append, List.nil_append, List.map_cons, List.map_cons, hd]

/-- C8 (amended): every pass re-initializes its remaining budget from the
stored `self.budget` (which it never modifies) and rebuilds the ledger and
grand total from scratch; but the exact-strategy core mutates the catalogue
availability in place — the post-pass availability is exactly the pre-pass
availability minus the quantities committed in the pass's own ledger, and it
is not restored afterwards, so a second pass can start from reduced
inventory and produce a different ledger (see the counterexample).  The
stochastic core, by contrast, allocates from a per-pass copy of the
availability and returns no availability update at all. -/
theorem budget_reset_inventory_carry_over :
    ∀ s : ESystem,
      (allocate_resources s).1.budget = s.budget
      ∧ (allocate_resources s).1.households = s.households
      ∧ (allocate_resources s).1.cost = s.cost
      ∧ (allocate_resources s).2
          = s.budget - (allocate_resources s).1.total_cost
      ∧ (∀ rt, (allocate_resources s).1.avail rt
          = s.avail rt - ledgerQty (allocate_resources s).1.allocated rt) := by
  intro s
  obtain ⟨ha, hb, hc, -⟩ := foldE_delta s.cost (sortByPriorityDesc s.households)
    ⟨s.avail, s.budget, 0⟩
  refine ⟨rfl, rfl, rfl, ?_, fun rt => ?_⟩
  · simpa [allocate_resources, allocPassE] using hb
  · simpa [allocate_resources, allocPassE] using ha rt

/-- The availability used by the C8 counterexample: a single Food Pack in
stock. -/
def availFood1 : ERes → ℤ
  | .food => 1 | .hygiene => 80 | .medical => 50 | .school => 70

/-- The system state of the C8 counterexample: one single-member household,
one Food Pack in stock. -/
def sysCarry : ESystem :=
  { cost := initES.cost, avail := availFood1,
    households := [⟨1, "A", 1, [30], calculate_priority 1 [30]⟩],
    budget := 150000, allocated := [], total_cost := 0 }

/-- Counterexample to C8 as frozen: running `allocate_resources` twice on the
same system state does not yield the same ledger — the first pass consumes
the only Food Pack and the inventory is not reset, so the second pass starts
from zero Food inventory and omits the Food commit. -/
theorem second_pass_differs_counterexample :
    (allocate_resources sysCarry).1.allocated
        = [(1, [(ERes.food, 1), (ERes.hygiene, 1)])]
    ∧ (allocate_resources (allocate_resources sysCarry).1).1.allocated
        = [(1, [(ERes.hygiene, 1)])]
    ∧ (allocate_resources (allocate_resources sysCarry).1).1.allocated
        ≠ (allocate_resources sysCarry).1.allocated
    ∧ (allocate_resources sysCarry).1.avail .food = 0
    ∧ sysCarry.avail .food = 1
    ∧ (allocate_resources sysCarry).1.budget = sysCarry.budget := by
  decide

/-- Bounds relating two exact-pass allocator states: the budget never grows
and stays non-negative, and so does the availability of every type. -/
def EStepOk (st st2 : EState) : Prop :=
  st2.budget ≤ st.budget ∧ (0 ≤ st.budget → 0 ≤ st2.budget)
  ∧ ∀ r, st2.avail r ≤ st.avail r ∧ (0 ≤ st.avail r → 0 ≤ st2.avail r)

/-- Bounds relating two stochastic-pass allocator states. -/
def SStepOk (st st2 : SState) : Prop :=
  st2.budget ≤ st.budget ∧ (0 ≤ st.budget → 0 ≤ st2.budget)
  ∧ ∀ i, st2.avail i ≤ st.avail i ∧ (0 ≤ st.avail i → 0 ≤ st2.avail i)

theorem EStepOk_refl (st : EState) : EStepOk st st :=
  ⟨le_refl _, fun h => h, fun _ => ⟨le_refl _, fun h => h⟩⟩

theorem EStepOk_trans {a b c : EState} (h1 : EStepOk a b) (h2 : EStepOk b c) :
    EStepOk a c := by
  obtain ⟨b1, b2, b3⟩ := h1
  obtain ⟨c1, c2, c3⟩ := h2
  refine ⟨le_trans c1 b1, fun h => c2 (b2 h), fun r => ?_⟩
  obtain ⟨x1, x2⟩ := b3 r
  obtain ⟨y1, y2⟩ := c3 r
  exact ⟨le_trans y1 x1, fun h => y2 (x2 h)⟩

theorem SStepOk_refl (st : SState) : SStepOk st st :=
  ⟨le_refl _, fun h => h, fun _ => ⟨le_refl _, fun h => h⟩⟩

theorem SStepOk_trans {a b c : SState} (h1 : SStepOk a b) (h2 : SStepOk b c) :
    SStepOk a c := by
  obtain ⟨b1, b2, b3⟩ := h1
  obtain ⟨c1, c2, c3⟩ := h2
  refine ⟨le_trans c1 b1, fun h => c2 (b2 h), fun i => ?_⟩
  obtain ⟨x1, x2⟩ := b3 i
  obtain ⟨y1, y2⟩ := c3 i
  exact ⟨le_trans y1 x1, fun h => y2 (x2 h)⟩

/-- One exact commit step keeps the budget and availability bounded. -/
theorem tryAlloc_EStepOk (cost : ERes → ℤ) (rt : ERes) (q : ℤ)
    (al : List (ERes × ℤ)) (st : EState) (hc : 0 ≤ cost rt) :
    EStepOk st (tryAlloc cost rt q al st).2 := by
  unfold tryAlloc
  split_ifs with h
  · obtain ⟨hq, hqa, hqc⟩ := (check_iff (cost rt) (st.avail rt) q st.budget).mp h
    have hqcost : 0 ≤ q * cost rt := mul_nonneg (le_of_lt hq) hc
    refine ⟨by dsimp; linarith, fun _ => by dsimp; linarith, fun r => ?_⟩
    dsimp only
    rcases eq_or_ne r rt with rfl | hne
    · rw [Function.update_same]
      exact ⟨by linarith, fun _ => by linarith⟩
    · rw [Function.update_noteq hne]
      exact ⟨le_refl _, fun hh => hh⟩
  · exact EStepOk_refl st

/-- Guarded version of `tryAlloc_EStepOk` for the medical/school steps. -/
theorem tryAllocIf_EStepOk (cost : ERes → ℤ) (rt : ERes) (q : ℤ) (c : Prop)
    [Decidable c] (p : List (ERes × ℤ) × EState) (hc : 0 ≤ cost rt) :
    EStepOk p.2 ((if c then tryAlloc cost rt q p.1 p.2 else p)).2 := by
  split_ifs with h
  · exact tryAlloc_EStepOk cost rt q p.1 p.2 hc
  · exact EStepOk_refl p.2

/-- One exact household scan keeps the budget and availability bounded. -/
theorem allocHouseholdE_EStepOk (cost : ERes → ℤ) (h : EHousehold) (st : EState)
    (hc : ∀ r, 0 ≤ cost r) :
    EStepOk st (allocHouseholdE cost h st).2 := by
  unfold allocHouseholdE
  dsimp only
  exact EStepOk_trans (EStepOk_trans (EStepOk_trans
    (tryAlloc_EStepOk _ _ _ _ _ (hc _)) (tryAlloc_EStepOk _ _ _ _ _ (hc _)))
    (tryAllocIf_EStepOk _ _ _ _ _ (hc _))) (tryAllocIf_EStepOk _ _ _ _ _ (hc _))

/-- The whole folded exact pass keeps the budget and availability bounded. -/
theorem foldE_EStepOk (cost : ERes → ℤ) (hc : ∀ r, 0 ≤ cost r) :
    ∀ (l : List EHousehold) (p : List (ℕ × List (ERes × ℤ)) × EState),
      EStepOk p.2 (l.foldl (passStepE cost) p).2 := by
  intro l
  induction l with
  | nil => intro p; exact EStepOk_refl _
  | cons h l ih =>
    intro p
    rw [List.foldl_cons]
    exact EStepOk_trans (allocHouseholdE_EStepOk cost h p.2 hc) (ih (passStepE cost p h))

/-- The needs of the stochastic variant are never negative. -/
theorem needsOf_nonneg (h : SHousehold) (item : SRes) : 0 ≤ needsOf h item := by
  cases item
  · exact le_trans zero_le_one (le_max_left _ _)
  · exact le_trans zero_le_one (le_max_left _ _)
  · unfold needsOf; split_ifs <;> norm_num
  · unfold needsOf; split_ifs <;> norm_num

/-- One stochastic commit step keeps the budget and availability bounded. -/
theorem allocItem_SStepOk (cost : SRes → ℤ) (q : ℤ) (item : SRes)
    (al : SRes → ℤ) (st : SState) (tc : ℤ) (hc : 0 ≤ cost item) (hq : 0 ≤ q) :
    SStepOk st (allocItem cost q item al st tc).2.1 := by
  unfold allocItem
  dsimp only
  split_ifs with h
  · obtain ⟨hqa, hqc⟩ := h
    have hqcost : 0 ≤ q * cost item := mul_nonneg hq hc
    refine ⟨by dsimp; linarith, fun _ => by dsimp; linarith, fun i => ?_⟩
    dsimp only
    rcases eq_or_ne i item with rfl | hne
    · rw [Function.update_same]
      exact ⟨by linarith, fun _ => by linarith⟩
    · rw [Function.update_noteq hne]
      exact ⟨le_refl _, fun hh => hh⟩
  · exact SStepOk_refl st

/-- One stochastic household scan keeps the budget and availability
bounded. -/
theorem allocHouseholdS_SStepOk (cost : SRes → ℤ) (h : SHousehold) (st : SState)
    (hc : ∀ i, 0 ≤ cost i) :
    SStepOk st (allocHouseholdS cost h st).2.1 := by
  unfold allocHouseholdS sresOrder
  simp only [List.foldl_cons, List.foldl_nil]
  exact SStepOk_trans (SStepOk_trans (SStepOk_trans
    (allocItem_SStepOk _ _ _ _ _ _ (hc _) (needsOf_nonneg h _))
    (allocItem_SStepOk _ _ _ _ _ _ (hc _) (needsOf_nonneg h _)))
    (allocItem_SStepOk _ _ _ _ _ _ (hc _) (needsOf_nonneg h _)))
    (allocItem_SStepOk _ _ _ _ _ _ (hc _) (needsOf_nonneg h _))

/-- The stochastic allocation loop keeps the budget and availability
bounded. -/
theorem simLoop_SStepOk (cost : SRes → ℤ) (hc : ∀ i, 0 ≤ cost i) :
    ∀ (fuel : ℕ) (heap : List SHousehold) (st : SState) (t : ℕ)
      (acc : List SRecord),
      SStepOk st (simLoopFuel cost fuel heap st t acc).2 := by
  intro fuel
  induction fuel with
  | zero => intro heap st t acc; exact SStepOk_refl _
  | succ fuel ih =>
    intro heap st t acc
    unfold simLoopFuel
    split_ifs with h1 h2
    · exact SStepOk_refl _
    · exact SStepOk_refl _
    · rcases hp : heappop hLt heap with - | ⟨hh, heap2⟩
      · exact SStepOk_refl _
      · dsimp only
        exact SStepOk_trans (allocHouseholdS_SStepOk cost hh st hc) (ih _ _ _ _)

/-- C2: throughout one allocation pass, in both variants, the remaining
budget and the availability of every resource type are monotonically
non-increasing and never become negative: each commit step, each household
scan and the whole pass relate the pre- and post-states by `EStepOk` /
`SStepOk`, under the configuration well-formedness assumption that every
unit cost is non-negative (and, for a single stochastic step, that the
requested quantity is non-negative, which `needsOf` always satisfies). -/
theorem budget_inventory_invariants :
    (∀ (cost : ERes → ℤ) (rt : ERes) (q : ℤ) (al : List (ERes × ℤ)) (st : EState),
        0 ≤ cost rt → EStepOk st (tryAlloc cost rt q al st).2)
    ∧ (∀ (cost : ERes → ℤ) (h : EHousehold) (st : EState),
        (∀ r, 0 ≤ cost r) → EStepOk st (allocHouseholdE cost h st).2)
    ∧ (∀ (cost : ERes → ℤ) (hs : List EHousehold) (st : EState),
        (∀ r, 0 ≤ cost r) → EStepOk st (allocPassE cost hs st).2)
    ∧ (∀ (cost : SRes → ℤ) (q : ℤ) (item : SRes) (al : SRes → ℤ) (st : SState)
        (tc : ℤ), 0 ≤ cost item → 0 ≤ q →
        SStepOk st (allocItem cost q item al st tc).2.1)
    ∧ (∀ (cost : SRes → ℤ) (h : SHousehold) (st : SState),
        (∀ i, 0 ≤ cost i) → SStepOk st (allocHouseholdS cost h st).2.1)
    ∧ (∀ (cost : SRes → ℤ) (fuel : ℕ) (heap : List SHousehold) (st : SState)
        (t : ℕ) (acc : List SRecord),
        (∀ i, 0 ≤ cost i) → SStepOk st (simLoopFuel cost fuel heap st t acc).2)
    ∧ (∀ (cost avail : SRes → ℤ) (budget : ℤ) (hs : List SHousehold),
        (∀ i, 0 ≤ cost i) →
        (simulate_allocation cost avail budget hs).2 ≤ budget
        ∧ (0 ≤ budget → 0 ≤ (simulate_allocation cost avail budget hs).2)) := by
  refine ⟨fun cost rt q al st hc => tryAlloc_EStepOk cost rt q al st hc,
    fun cost h st hc => allocHouseholdE_EStepOk cost h st hc,
    fun cost hs st hc => foldE_EStepOk cost hc (sortByPriorityDesc hs) ([], st),
    fun cost q item al st tc hc hq => allocItem_SStepOk cost q item al st tc hc hq,
    fun cost h st hc => allocHouseholdS_SStepOk cost h st hc,
    fun cost fuel heap st t acc hc => simLoop_SStepOk cost hc fuel heap st t acc,
    fun cost avail budget hs hc => ?_⟩
  obtain ⟨h1, h2, -⟩ := simLoop_SStepOk cost hc
    ((hs.foldl (heappush hLt) []).length) (hs.foldl (heappush hLt) [])
    ⟨avail, budget⟩ 0 []
  exact ⟨h1, h2⟩

/-- Witness for C2: the exact pass bounds at a concrete state. -/
theorem budget_inventory_invariants_witness :
    EStepOk ⟨initES.avail, 900, 0⟩
      (allocPassE initES.cost
        [⟨1, "W", 6, [30, 30, 30, 30, 30, 30],
          calculate_priority 6 [30, 30, 30, 30, 30, 30]⟩]
        ⟨initES.avail, 900, 0⟩).2 :=
  budget_inventory_invariants.2.2.1 initES.cost
    [⟨1, "W", 6, [30, 30, 30, 30, 30, 30],
      calculate_priority 6 [30, 30, 30, 30, 30, 30]⟩]
    ⟨initES.avail, 900, 0⟩
    (by intro r; cases r <;> norm_num [initES])

/-- Per-household accounting of the stochastic scan: the recorded household
total equals the sum over the catalogue of committed quantity times unit
cost, and the budget drops by exactly that total. -/
theorem allocHouseholdS_total (cost : SRes → ℤ) (h : SHousehold) (st : SState) :
    (allocHouseholdS cost h st).2.2
      = sumS (fun rt => (allocHouseholdS cost h st).1 rt * cost rt)
    ∧ (allocHouseholdS cost h st).2.1.budget
      = st.budget - (allocHouseholdS cost h st).2.2 := by
  unfold allocHouseholdS sresOrder allocItem
  simp only [List.foldl_cons, List.foldl_nil]
  split_ifs <;>
    constructor <;>
    simp [sumS, Function.update] <;>
    ring

/-- Accounting of the stochastic allocation loop: the sum of recorded totals
plus the remaining budget is conserved, and every emitted record's total
matches its committed quantities. -/
theorem simLoop_records (cost : SRes → ℤ) :
    ∀ (fuel : ℕ) (heap : List SHousehold) (st : SState) (t : ℕ)
      (acc : List SRecord),
      (((simLoopFuel cost fuel heap st t acc).1.map SRecord.totalCost).sum
          + (simLoopFuel cost fuel heap st t acc).2.budget
        = (acc.map SRecord.totalCost).sum + st.budget)
      ∧ (acc.map SRecord.totalCost
            = acc.map (fun rec => sumS fun rt => rec.alloc rt * cost rt) →
          (simLoopFuel cost fuel heap st t acc).1.map SRecord.totalCost
            = (simLoopFuel cost fuel heap st t acc).1.map
                (fun rec => sumS fun rt => rec.alloc rt * cost rt)) := by
  intro fuel
  induction fuel with
  | zero => intro heap st t acc; exact ⟨rfl, fun h => h⟩
  | succ fuel ih =>
    intro heap st t acc
    unfold simLoopFuel
    split_ifs with h1 h2
    · exact ⟨rfl, fun h => h⟩
    · exact ⟨rfl, fun h => h⟩
    · rcases hp : heappop hLt heap with - | ⟨hh, heap2⟩
      · exact ⟨rfl, fun h => h⟩
      · dsimp only
        obtain ⟨ta, tb⟩ := allocHouseholdS_total cost hh st
        obtain ⟨ia, ib⟩ := ih heap2 (allocHouseholdS cost hh st).2.1 (t + 1)
          (acc ++ [⟨hh.id, (allocHouseholdS cost hh st).1,
            (allocHouseholdS cost hh st).2.2, t, hh.priority⟩])
        constructor
        · rw [ia]
          simp only [List.map_append, List.sum_append, List.map_cons, List.map_nil,
            List.sum_cons, List.sum_nil]
          linarith
        · intro hacc
          refine ib ?_
          simp only [List.map_append, List.map_cons, List.map_nil]
          rw [hacc]
          congr 1
          simp only [List.cons.injEq, and_true]
          exact ta

/-- C3: after a pass, the recorded totals are exactly the committed
quantities priced at unit cost, and the grand total equals the budget
consumed.  Exact variant: `self.total_cost` equals the summed ledger cost
and the returned remaining budget is the stored budget minus it.  Stochastic
variant: every record's `Total Cost` equals the sum over resource types of
its committed quantity times unit cost, and the records' summed totals equal
the initial budget minus the returned remaining budget. -/
theorem cost_accounting :
    (∀ s : ESystem,
        (allocate_resources s).1.total_cost
          = ((allocate_resources s).1.allocated.map (fun e => entryCost s.cost e.2)).sum
        ∧ (allocate_resources s).2 = s.budget - (allocate_resources s).1.total_cost)
    ∧ (∀ (cost avail : SRes → ℤ) (budget : ℤ) (hs : List SHousehold),
        ((simulate_allocation cost avail budget hs).1.map SRecord.totalCost
          = (simulate_allocation cost avail budget hs).1.map
              (fun rec => sumS fun rt => rec.alloc rt * cost rt))
        ∧ ((simulate_allocation cost avail budget hs).1.map SRecord.totalCost).sum
            = budget - (simulate_allocation cost avail budget hs).2) := by
  constructor
  · intro s
    obtain ⟨-, hb, hc, -⟩ := foldE_delta s.cost (sortByPriorityDesc s.households)
      ⟨s.avail, s.budget, 0⟩
    constructor
    · simpa [allocate_resources, allocPassE] using hc
    · have hb' := hb
      simp only [allocate_resources, allocPassE]
      dsimp only at hb' ⊢
      linarith
  · intro cost avail budget hs
    obtain ⟨ha, hb⟩ := simLoop_records cost
      ((hs.foldl (heappush hLt) []).length) (hs.foldl (heappush hLt) [])
      ⟨avail, budget⟩ 0 []
    refine ⟨hb (by simp), ?_⟩
    simp only [List.map_nil, List.sum_nil, Nat.zero_add, zero_add] at ha
    simp only [simulate_allocation]
    linarith

/-- The sift-towards-root loop only writes in place: length is preserved. -/
theorem siftdownFuel_length {α : Type} (lt : α → α → Bool) (newitem : α)
    (startpos : ℕ) :
    ∀ (fuel : ℕ) (heap : List α) (pos : ℕ),
      (siftdownFuel lt newitem startpos fuel heap pos).length = heap.length := by
  intro fuel
  induction fuel with
  | zero => intro heap pos; simp [siftdownFuel]
  | succ fuel ih =>
    intro heap pos
    unfold siftdownFuel
    dsimp only
    split_ifs <;> simp [ih]

/-- The sift-towards-leaves loop only writes in place: length is
preserved. -/
theorem siftupFuel_length {α : Type} (lt : α → α → Bool) (newitem : α)
    (startpos : ℕ) :
    ∀ (fuel : ℕ) (heap : List α) (pos : ℕ),
      (siftupFuel lt newitem startpos fuel heap pos).length = heap.length := by
  intro fuel
  induction fuel with
  | zero =>
    intro heap pos
    unfold siftupFuel
    rw [siftdownFuel_length]
    simp
  | succ fuel ih =>
    intro heap pos
    unfold siftupFuel
    dsimp only
    split_ifs <;> simp [ih, siftdownFuel_length]

/-- `heappush` grows the heap by exactly one element. -/
theorem heappush_length {α : Type} (lt : α → α → Bool) (heap : List α) (item : α) :
    (heappush lt heap item).length = heap.length + 1 := by
  unfold heappush
  rw [siftdownFuel_length]
  simp

/-- `heappop` shrinks the heap by exactly one element. -/
theorem heappop_length {α : Type} (lt : α → α → Bool) (heap : List α) (x : α)
    (rest : List α) (h : heappop lt heap = some (x, rest)) :
    heap.length = rest.length + 1 := by
  unfold heappop at h
  rcases hl : heap.getLast? with - | lastelt <;> rw [hl] at h
  · simp at h
  · have hpos : 0 < heap.length := by
      cases heap
      · simp at hl
      · simp
    have hdl : heap.dropLast.length = heap.length - 1 := by
      simp
    rcases hr : heap.dropLast with - | ⟨r0, rs⟩ <;> rw [hr] at h <;>
      simp only [Option.some.injEq, Prod.mk.injEq] at h
    · obtain ⟨-, h2⟩ := h
      subst h2
      rw [hr] at hdl
      simp only [List.length_nil] at hdl ⊢
      omega
    · obtain ⟨-, h2⟩ := h
      subst h2
      rw [siftupFuel_length, List.length_set]
      rw [hr] at hdl
      omega

/-- `heappop` fails only on the empty heap. -/
theorem heappop_ne_none {α : Type} (lt : α → α → Bool) (heap : List α)
    (hne : heap ≠ []) : heappop lt heap ≠ none := by
  intro hp
  unfold heappop at hp
  rcases hl : heap.getLast? with - | lastelt <;> rw [hl] at hp
  · cases heap
    · exact hne rfl
    · simp at hl
  · rcases hr : heap.dropLast with - | ⟨r0, rs⟩ <;> rw [hr] at hp <;> simp at hp

/-- Pushing every household keeps the count. -/
theorem heapify_length (hs : List SHousehold) :
    (hs.foldl (heappush hLt) []).length = hs.length := by
  suffices h : ∀ (l : List SHousehold) (init : List SHousehold),
      (l.foldl (heappush hLt) init).length = init.length + l.length by
    simpa using h hs []
  intro l
  induction l with
  | nil => intro init; simp
  | cons x xs ih =>
    intro init
    rw [List.foldl_cons, ih, heappush_length]
    simp only [List.length_cons]
    omega

/-- The stochastic loop either emits one record per heap element or stops
with a non-positive budget. -/
theorem simLoop_settles (cost : SRes → ℤ) :
    ∀ (fuel : ℕ) (heap : List SHousehold) (st : SState) (t : ℕ)
      (acc : List SRecord),
      fuel = heap.length →
      (simLoopFuel cost fuel heap st t acc).1.length = acc.length + heap.length
      ∨ (simLoopFuel cost fuel heap st t acc).2.budget ≤ 0 := by
  intro fuel
  induction fuel with
  | zero =>
    intro heap st t acc hf
    left
    simp [simLoopFuel, ← hf]
  | succ fuel ih =>
    intro heap st t acc hf
    unfold simLoopFuel
    split_ifs with h1 h2
    · left
      have h0 : heap.length = 0 := by
        cases heap
        · rfl
        · simp at h1
      simp [h0]
    · right
      exact h2
    · rcases hp : heappop hLt heap with - | ⟨hh, heap2⟩
      · exfalso
        refine heappop_ne_none hLt heap ?_ hp
        intro he
        rw [he] at h1
        simp at h1
      · dsimp only
        have hlen : heap.length = heap2.length + 1 := heappop_length hLt heap hh heap2 hp
        have hf2 : fuel = heap2.length := by omega
        rcases ih heap2 (allocHouseholdS cost hh st).2.1 (t + 1)
            (acc ++ [⟨hh.id, (allocHouseholdS cost hh st).1,
              (allocHouseholdS cost hh st).2.2, t, hh.priority⟩]) hf2 with hL | hR
        · left
          rw [hL]
          simp only [List.length_append, List.length_cons, List.length_nil]
          omega
        · right
          exact hR

/-- Inserting into the stable sort permutes the consed list. -/
theorem insertByPriority_perm (h : EHousehold) :
    ∀ l : List EHousehold, List.Perm (insertByPriority h l) (h :: l) := by
  intro l
  induction l with
  | nil => simp [insertByPriority]
  | cons x xs ih =>
    unfold insertByPriority
    split_ifs with hc
    · exact List.Perm.refl _
    · exact List.Perm.trans (ih.cons x) (List.Perm.swap h x xs)

/-- The stable sort permutes its input. -/
theorem sortByPriorityDesc_perm :
    ∀ l : List EHousehold, List.Perm (sortByPriorityDesc l) l := by
  intro l
  induction l with
  | nil => exact List.Perm.refl _
  | cons x xs ih =>
    unfold sortByPriorityDesc
    exact List.Perm.trans (insertByPriority_perm x (sortByPriorityDesc xs)) (ih.cons x)

/-- Inserting into a descending list keeps it descending. -/
theorem insertByPriority_sorted (h : EHousehold) :
    ∀ l : List EHousehold,
      List.Pairwise (fun a b => b.priority_score ≤ a.priority_score) l →
      List.Pairwise (fun a b => b.priority_score ≤ a.priority_score)
        (insertByPriority h l) := by
  intro l
  induction l with
  | nil => intro _; simp [insertByPriority]
  | cons x xs ih =>
    intro hl
    rw [List.pairwise_cons] at hl
    obtain ⟨hx, hxs⟩ := hl
    unfold insertByPriority
    split_ifs with hc
    · rw [List.pairwise_cons]
      refine ⟨?_, by rw [List.pairwise_cons]; exact ⟨hx, hxs⟩⟩
      intro y hy
      rcases List.mem_cons.mp hy with rfl | hy'
      · exact hc
      · exact le_trans (hx y hy') hc
    · rw [List.pairwise_cons]
      refine ⟨?_, ih hxs⟩
      intro y hy
      rcases List.mem_cons.mp ((insertByPriority_perm h xs).mem_iff.mp hy) with rfl | hy'
      · exact le_of_lt (lt_of_not_le hc)
      · exact hx y hy'

/-- Inserting preserves the subsequence of any fixed priority score: the
skipped elements all have a strictly larger score. -/
theorem insertByPriority_filter (h : EHousehold) (p : ℤ) :
    ∀ l : List EHousehold,
      (insertByPriority h l).filter (fun x => decide (x.priority_score = p))
        = if h.priority_score = p
          then h :: l.filter (fun x => decide (x.priority_score = p))
          else l.filter (fun x => decide (x.priority_score = p)) := by
  intro l
  induction l with
  | nil =>
    unfold insertByPriority
    split_ifs with hp <;> simp [List.filter_cons, hp]
  | cons x xs ih =>
    unfold insertByPriority
    split_ifs with hc hp hp
    · simp [List.filter_cons, hp]
    · simp [List.filter_cons, hp]
    · have hxp : h.priority_score < x.priority_score := lt_of_not_le hc
      have hxne : x.priority_score ≠ p := by
        rw [← hp]
        exact ne_of_gt hxp
      simp [List.filter_cons, hxne, ih, hp]
    · simp [List.filter_cons, ih, hp]

/-- The stable sort preserves the subsequence of any fixed priority
score. -/
theorem sortByPriorityDesc_stable (p : ℤ) :
    ∀ l : List EHousehold,
      (sortByPriorityDesc l).filter (fun x => decide (x.priority_score = p))
        = l.filter (fun x => decide (x.priority_score = p)) := by
  intro l
  induction l with
  | nil => rfl
  | cons x xs ih =>
    unfold sortByPriorityDesc
    rw [insertByPriority_filter]
    split_ifs with hp
    · simp [List.filter_cons, hp, ih]
    · simp [List.filter_cons, hp, ih]

/-- Counterexample to C4 as frozen: with budget 800 and two households, the
higher-priority household consumes the whole budget (Food 500 + Hygiene
300), the loop guard `remaining_budget > 0` then stops the pass, and the
second household receives no allocation record at all — no empty record
with a synthetic processing index is emitted. -/
theorem early_stop_drops_household_counterexample :
    (simulate_allocation simCost simAvail 800
        [mkSHousehold 1 [30, 30, 30, 30] 4 .low, mkSHousehold 2 [30, 30] 2 .low]).1.map
        SRecord.householdId = [1]
    ∧ (simulate_allocation simCost simAvail 800
        [mkSHousehold 1 [30, 30, 30, 30] 4 .low, mkSHousehold 2 [30, 30] 2 .low]).2 = 0 := by
  constructor <;>
    norm_num +decide [simulate_allocation, simLoopFuel, heappush, heappop, siftdownFuel,
      siftupFuel, hLt, allocHouseholdS, sresOrder, allocItem, needsOf, pyRound,
      mkSHousehold, sim_calculate_priority, bayesian_expected_members, sizeJoint,
      sizeTotal, size_priors, size_likelihood, bayesian_vulnerability_score, vulnJoint,
      vulnTotal, vulnList, vulnerability_likelihoods, vulnerability_priors,
      vulnerability_weights, simCost, simAvail, Function.update]

/-- One stochastic commit step keeps the budget non-negative (the commit is
guarded by `cost ≤ budget`). -/
theorem allocItem_budget_nonneg (cost : SRes → ℤ) (q : ℤ) (item : SRes)
    (al : SRes → ℤ) (st : SState) (tc : ℤ) (h0 : 0 ≤ st.budget) :
    0 ≤ (allocItem cost q item al st tc).2.1.budget := by
  unfold allocItem
  dsimp only
  split_ifs with h
  · dsimp only
    linarith [h.2]
  · exact h0

/-- One stochastic household scan keeps the budget non-negative. -/
theorem allocHouseholdS_budget_nonneg (cost : SRes → ℤ) (h : SHousehold)
    (st : SState) (h0 : 0 ≤ st.budget) :
    0 ≤ (allocHouseholdS cost h st).2.1.budget := by
  unfold allocHouseholdS sresOrder
  simp only [List.foldl_cons, List.foldl_nil]
  exact allocItem_budget_nonneg _ _ _ _ _ _
    (allocItem_budget_nonneg _ _ _ _ _ _
      (allocItem_budget_nonneg _ _ _ _ _ _
        (allocItem_budget_nonneg _ _ _ _ _ _ h0)))

/-- The stochastic loop keeps the budget non-negative. -/
theorem simLoop_budget_nonneg (cost : SRes → ℤ) :
    ∀ (fuel : ℕ) (heap : List SHousehold) (st : SState) (t : ℕ)
      (acc : List SRecord), 0 ≤ st.budget →
      0 ≤ (simLoopFuel cost fuel heap st t acc).2.budget := by
  intro fuel
  induction fuel with
  | zero => intro heap st t acc h0; exact h0
  | succ fuel ih =>
    intro heap st t acc h0
    unfold simLoopFuel
    split_ifs with h1 h2
    · exact h0
    · exact h0
    · rcases hp : heappop hLt heap with - | ⟨hh, heap2⟩
      · exact h0
      · dsimp only
        exact ih _ _ _ _ (allocHouseholdS_budget_nonneg cost hh st h0)

/-- C4 (amended): the exact-strategy pass settles every supplied household —
its ledger holds exactly one entry per household, in processing order, and
the entry ids are a permutation of the household ids; there is no error
state.  The stochastic pass, however, settles households only while the
shared budget is positive: starting from a non-negative budget, either
every household receives a record, or the pass stops with the budget at
exactly zero — and the remaining unprocessed households then receive no
record at all (see the counterexample), rather than empty records with the
current synthetic processing index. -/
theorem all_households_get_records_amended :
    (∀ s : ESystem,
        (allocate_resources s).1.allocated.map Prod.fst
          = (sortByPriorityDesc s.households).map EHousehold.id
        ∧ List.Perm ((allocate_resources s).1.allocated.map Prod.fst)
            (s.households.map EHousehold.id))
    ∧ (∀ (cost avail : SRes → ℤ) (budget : ℤ) (hs : List SHousehold),
        0 ≤ budget →
        (simulate_allocation cost avail budget hs).1.length = hs.length
        ∨ (simulate_allocation cost avail budget hs).2 = 0) := by
  constructor
  · intro s
    obtain ⟨-, -, -, hd⟩ := foldE_delta s.cost (sortByPriorityDesc s.households)
      ⟨s.avail, s.budget, 0⟩
    have hids : (allocate_resources s).1.allocated.map Prod.fst
        = (sortByPriorityDesc s.households).map EHousehold.id := by
      simpa [allocate_resources, allocPassE] using hd
    exact ⟨hids, hids ▸ List.Perm.map EHousehold.id (sortByPriorityDesc_perm s.households)⟩
  · intro cost avail budget hs hb
    rcases simLoop_settles cost ((hs.foldl (heappush hLt) []).length)
        (hs.foldl (heappush hLt) []) ⟨avail, budget⟩ 0 [] rfl with hL | hR
    · left
      show (simLoopFuel cost ((hs.foldl (heappush hLt) []).length)
        (hs.foldl (heappush hLt) []) ⟨avail, budget⟩ 0 []).1.length = hs.length
      rw [hL]
      simp [heapify_length hs]
    · right
      have hnn := simLoop_budget_nonneg cost ((hs.foldl (heappush hLt) []).length)
        (hs.foldl (heappush hLt) []) ⟨avail, budget⟩ 0 [] hb
      show (simLoopFuel cost ((hs.foldl (heappush hLt) []).length)
        (hs.foldl (heappush hLt) []) ⟨avail, budget⟩ 0 []).2.budget = 0
      omega

/-- Witness for C4: the settlement disjunction at the counterexample input
(there the right disjunct holds: the budget hits exactly zero). -/
theorem all_households_get_records_amended_witness :
    (simulate_allocation simCost simAvail 800
        [mkSHousehold 1 [30, 30, 30, 30] 4 .low, mkSHousehold 2 [30, 30] 2 .low]).1.length
      = [mkSHousehold 1 [30, 30, 30, 30] 4 .low, mkSHousehold 2 [30, 30] 2 .low].length
    ∨ (simulate_allocation simCost simAvail 800
        [mkSHousehold 1 [30, 30, 30, 30] 4 .low, mkSHousehold 2 [30, 30] 2 .low]).2 = 0 :=
  all_households_get_records_amended.2 simCost simAvail 800
    [mkSHousehold 1 [30, 30, 30, 30] 4 .low, mkSHousehold 2 [30, 30] 2 .low]
    (by norm_num)

/-- Counterexample to C5 as frozen: four households with identical reports
(hence exactly equal priority scores) are pushed in id order 1, 2, 3, 4, but
the stochastic pass processes them in the heap's pop order 1, 3, 2, 4 — not
in insertion/id order. -/
theorem heap_tie_break_counterexample :
    (mkSHousehold 1 [30, 30, 30, 30] 4 .low).priority
        = (mkSHousehold 2 [30, 30, 30, 30] 4 .low).priority
    ∧ (mkSHousehold 2 [30, 30, 30, 30] 4 .low).priority
        = (mkSHousehold 3 [30, 30, 30, 30] 4 .low).priority
    ∧ (mkSHousehold 3 [30, 30, 30, 30] 4 .low).priority
        = (mkSHousehold 4 [30, 30, 30, 30] 4 .low).priority
    ∧ (simulate_allocation simCost simAvail 150000
        [mkSHousehold 1 [30, 30, 30, 30] 4 .low, mkSHousehold 2 [30, 30, 30, 30] 4 .low,
         mkSHousehold 3 [30, 30, 30, 30] 4 .low, mkSHousehold 4 [30, 30, 30, 30] 4 .low]).1.map
        SRecord.householdId = [1, 3, 2, 4] := by
  refine ⟨rfl, rfl, rfl, ?_⟩
  norm_num +decide [simulate_allocation, simLoopFuel, heappush, heappop, siftdownFuel,
    siftupFuel, hLt, allocHouseholdS, sresOrder, allocItem, needsOf, pyRound,
    mkSHousehold, sim_calculate_priority, bayesian_expected_members, sizeJoint,
    sizeTotal, size_priors, size_likelihood, bayesian_vulnerability_score, vulnJoint,
    vulnTotal, vulnList, vulnerability_likelihoods, vulnerability_priors,
    vulnerability_weights, simCost, simAvail, Function.update]

/-- C5 (amended): the exact-strategy pass processes households in
non-increasing order of priority score with the deterministic stable
tie-break on original insertion order — the sorted list is a permutation of
the input, pairwise non-increasing, preserves the relative order of every
equal-score group, and the ledger is emitted in exactly that order.  The
stochastic pass is also a deterministic function of its input, but its
binary-heap ordering does not preserve insertion order among equal
priorities (see the counterexample). -/
theorem processing_order_amended :
    (∀ hs : List EHousehold,
        List.Pairwise (fun a b => b.priority_score ≤ a.priority_score)
          (sortByPriorityDesc hs)
        ∧ List.Perm (sortByPriorityDesc hs) hs
        ∧ ∀ p : ℤ, (sortByPriorityDesc hs).filter (fun x => decide (x.priority_score = p))
            = hs.filter (fun x => decide (x.priority_score = p)))
    ∧ (∀ (cost : ERes → ℤ) (hs : List EHousehold) (st : EState),
        (allocPassE cost hs st).1.map Prod.fst
          = (sortByPriorityDesc hs).map EHousehold.id) := by
  constructor
  · intro hs
    refine ⟨?_, sortByPriorityDesc_perm hs, fun p => sortByPriorityDesc_stable p hs⟩
    induction hs with
    | nil => simp [sortByPriorityDesc]
    | cons x xs ih =>
      unfold sortByPriorityDesc
      exact insertByPriority_sorted x (sortByPriorityDesc xs) ih
  · intro cost hs st
    obtain ⟨-, -, -, hd⟩ := foldE_delta cost (sortByPriorityDesc hs) st
    exact hd

end Es
